import Mathlib

set_option maxHeartbeats 1000000

/-! Shallow embedding of the PDF analysis pipeline in
src/components/FileUpload.tsx: the response formatter
validateAndFormatResponse, the file-selection handler handleFileChange,
the per-kind analysis job processWithAssistant, and a small-step
semantics of the React state updates driven by handleUpload.  Strings
are modelled as lists of characters; the JavaScript string operations
the component uses (trim, split, join, the three line-anchored regex
replaces and the leading-marker test) are translated below. -/

/-- The AssistantType union from src/config/assistants: the three analysis kinds. -/
inductive AssistantType where
  | INSIGHTS
  | ACHIEVEMENTS
  | RESEARCH_IDEAS
  deriving DecidableEq, Repr

/-- The string JavaScript interpolates for each kind (the keys of ASSISTANTS). -/
def kindName : AssistantType → String
  | .INSIGHTS => "INSIGHTS"
  | .ACHIEVEMENTS => "ACHIEVEMENTS"
  | .RESEARCH_IDEAS => "RESEARCH_IDEAS"

/-- ASCII whitespace recognised by JavaScript String.prototype.trim
(space, tab, newline, carriage return, vertical tab, form feed). -/
def isWs (c : Char) : Bool :=
  decide (c = ' ' ∨ c = '\t' ∨ c = '\n' ∨ c = '\r' ∨ c = '\x0b' ∨ c = '\x0c')

/-- JavaScript s.trim(): drop leading and trailing whitespace. -/
def trimChars (l : List Char) : List Char :=
  ((l.dropWhile isWs).reverse.dropWhile isWs).reverse

/-- JavaScript s.split('\n'). -/
def splitLines : List Char → List (List Char)
  | [] => [[]]
  | c :: cs =>
    if c = '\n' then [] :: splitLines cs
    else (c :: (splitLines cs).headD []) :: (splitLines cs).tail

/-- JavaScript lines.join('\n'). -/
def joinLines : List (List Char) → List Char
  | [] => []
  | [l] => l
  | l :: ls => l ++ '\n' :: joinLines ls

/-- JavaScript content.replace(/\r\n/g, '\n') (FileUpload.tsx line 16). -/
def normalizeCRLF : List Char → List Char
  | [] => []
  | [c] => [c]
  | c :: d :: cs =>
    if c = '\r' ∧ d = '\n' then '\n' :: normalizeCRLF cs
    else c :: normalizeCRLF (d :: cs)

/-- Whether the text contains a carriage return immediately followed by a
newline (the pattern rewritten by normalizeCRLF). -/
def hasCRLF : List Char → Bool
  | [] => false
  | [_] => false
  | c :: d :: cs => decide (c = '\r' ∧ d = '\n') || hasCRLF (d :: cs)

/-- Whether the first list is a leading segment of the second
(the anchored part of the ^... line regexes). -/
def startsWithL : List Char → List Char → Bool
  | [], _ => true
  | _ :: _, [] => false
  | p :: ps, c :: cs => decide (p = c) && startsWithL ps cs

/-- A line matched by /^#.*$/m (FileUpload.tsx line 19). -/
def pHash (ln : List Char) : Bool := startsWithL ['#'] ln

def introChars : List Char := ['I', 'n', 't', 'r', 'o', 'd', 'u', 'c', 't', 'i', 'o', 'n']

def summaryChars : List Char := ['S', 'u', 'm', 'm', 'a', 'r', 'y']

/-- A line matched by /^Introduction:?.*$/m (line 20); since the regex ends
in .*$, it matches exactly the lines that begin with the literal word. -/
def pIntro (ln : List Char) : Bool := startsWithL introChars ln

/-- A line matched by /^Summary:?.*$/m (line 21). -/
def pSummary (ln : List Char) : Bool := startsWithL summaryChars ln

/-- A multiline replace of every matching line by the empty string: each
line between newline separators is kept or emptied, separators stay. -/
def stripLines (p : List Char → Bool) (l : List Char) : List Char :=
  joinLines ((splitLines l).map (fun ln => if p ln then [] else ln))

/-- Continuation of the /^\d+\./ test after its first digit: further
digits followed by a literal dot. -/
def digitsDot : List Char → Bool
  | [] => false
  | c :: cs => decide (c = '.') || (c.isDigit && digitsDot cs)

/-- The test /^(\d+\.|[-*•])/ on a line (FileUpload.tsx line 31). -/
def startsWithMarker : List Char → Bool
  | [] => false
  | c :: cs =>
    decide (c = '-') || decide (c = '*') || decide (c = '•') ||
      (c.isDigit && digitsDot cs)

/-- The per-line step of the formatter (lines 26-35): blank lines become
empty, lines already carrying a marker are trimmed and kept, and every
other line is trimmed and prefixed with a dash bullet. -/
def formatLine (line : List Char) : List Char :=
  if trimChars line = [] then []
  else if startsWithMarker (trimChars line) then trimChars line
  else '-' :: ' ' :: trimChars line

/-- Lines 16-21 of validateAndFormatResponse: normalize line endings,
trim, and strip heading/Introduction/Summary preamble lines, trimming
after each replace. -/
def preprocess (content : List Char) : List Char :=
  let s1 := trimChars (normalizeCRLF content)
  let s2 := trimChars (stripLines pHash s1)
  let s3 := trimChars (stripLines pIntro s2)
  trimChars (stripLines pSummary s3)

/-- Lines 24-37: split into lines, format each, drop the empties. -/
def bodyLines (content : List Char) : List (List Char) :=
  ((splitLines (preprocess content)).map formatLine).filter (fun l => !l.isEmpty)

/-- The kind-specific level-2 heading prepended at lines 40-50. -/
def headingChars : AssistantType → List Char
  | .INSIGHTS => "## Key Research Insights".toList
  | .ACHIEVEMENTS => "## Notable Achievements".toList
  | .RESEARCH_IDEAS => "## Research Opportunities".toList

/-- validateAndFormatResponse (lines 14-53) over character lists. -/
def formatChars (content : List Char) (t : AssistantType) : List Char :=
  headingChars t ++ '\n' :: '\n' :: joinLines (bodyLines content)

/-- validateAndFormatResponse (lines 14-53). -/
def validateAndFormatResponse (content : String) (t : AssistantType) : String :=
  String.mk (formatChars content.toList t)

/-! Basic facts about the string operations. -/

theorem dropWhile_head_not (p : Char → Bool) :
    ∀ (l : List Char) (c : Char), (l.dropWhile p).head? = some c → p c = false
  | [], c, h => by simp at h
  | a :: l, c, h => by
    rw [List.dropWhile_cons] at h
    by_cases hpa : p a = true
    · rw [if_pos hpa] at h
      exact dropWhile_head_not p l c h
    · rw [if_neg hpa] at h
      obtain rfl : a = c := by simpa using h
      simpa using hpa

theorem dropWhile_eq_self_of_head (p : Char → Bool) (l : List Char)
    (h : ∀ c ∈ l.head?, p c = false) : l.dropWhile p = l := by
  cases l with
  | nil => rfl
  | cons a l =>
    rw [List.dropWhile_cons, if_neg]
    simp [h a rfl]

theorem getLast?_dropWhile (p : Char → Bool) :
    ∀ l : List Char, l.dropWhile p ≠ [] → (l.dropWhile p).getLast? = l.getLast?
  | [], h => absurd rfl h
  | a :: l, h => by
    rw [List.dropWhile_cons] at h ⊢
    by_cases hpa : p a = true
    · rw [if_pos hpa] at h ⊢
      have hl : l ≠ [] := by
        intro hnil
        rw [hnil] at h
        exact h rfl
      rw [getLast?_dropWhile p l h]
      cases l with
      | nil => exact absurd rfl hl
      | cons b m => exact (List.getLast?_cons_cons).symm
    · rw [if_neg hpa]

theorem trimChars_getLast_not_ws (l : List Char) :
    ∀ c ∈ (trimChars l).getLast?, isWs c = false := by
  intro c hc
  rw [Option.mem_def] at hc
  unfold trimChars at hc
  rw [List.getLast?_reverse] at hc
  exact dropWhile_head_not isWs _ c hc

theorem trimChars_head_not_ws (l : List Char) :
    ∀ c ∈ (trimChars l).head?, isWs c = false := by
  intro c hc
  rw [Option.mem_def] at hc
  unfold trimChars at hc
  rw [List.head?_reverse] at hc
  by_cases hne : ((l.dropWhile isWs).reverse).dropWhile isWs = []
  · rw [hne] at hc
    simp at hc
  · rw [getLast?_dropWhile isWs _ hne, List.getLast?_reverse] at hc
    exact dropWhile_head_not isWs l c hc

theorem trimChars_eq_self (l : List Char)
    (h1 : ∀ c ∈ l.head?, isWs c = false) (h2 : ∀ c ∈ l.getLast?, isWs c = false) :
    trimChars l = l := by
  have h2' : ∀ c ∈ l.reverse.head?, isWs c = false := by
    intro c hc
    rw [List.head?_reverse] at hc
    exact h2 c hc
  unfold trimChars
  rw [dropWhile_eq_self_of_head isWs l h1, dropWhile_eq_self_of_head isWs l.reverse h2',
    List.reverse_reverse]

theorem trimChars_idem (l : List Char) : trimChars (trimChars l) = trimChars l :=
  trimChars_eq_self _ (trimChars_head_not_ws l) (trimChars_getLast_not_ws l)

theorem trimChars_cons_ws (c : Char) (l : List Char) (h : isWs c = true) :
    trimChars (c :: l) = trimChars l := by
  unfold trimChars
  rw [List.dropWhile_cons, if_pos h]

theorem mem_trimChars (x : Char) (l : List Char) (h : x ∈ trimChars l) : x ∈ l := by
  unfold trimChars at h
  rw [List.mem_reverse] at h
  have h2 := (List.dropWhile_sublist isWs).subset h
  rw [List.mem_reverse] at h2
  exact (List.dropWhile_sublist isWs).subset h2

theorem splitLines_ne_nil : ∀ l : List Char, splitLines l ≠ []
  | [] => by simp [splitLines]
  | c :: cs => by
    simp only [splitLines]
    split <;> simp

theorem splitLines_no_newline : ∀ (l : List Char), ∀ x ∈ splitLines l, '\n' ∉ x
  | [], x, hx => by
    simp [splitLines] at hx
    simp [hx]
  | c :: cs, x, hx => by
    simp only [splitLines] at hx
    by_cases hc : c = '\n'
    · rw [if_pos hc] at hx
      rcases List.mem_cons.mp hx with rfl | hx'
      · simp
      · exact splitLines_no_newline cs x hx'
    · rw [if_neg hc] at hx
      rcases List.mem_cons.mp hx with rfl | hx'
      · intro hmem
        rcases List.mem_cons.mp hmem with heq | hmem'
        · exact hc heq.symm
        · cases hsc : splitLines cs with
          | nil => rw [hsc] at hmem'; simp at hmem'
          | cons l0 ls0 =>
            rw [hsc] at hmem'
            simp only [List.headD_cons] at hmem'
            exact splitLines_no_newline cs l0
              (by rw [hsc]; exact List.mem_cons_self l0 ls0) hmem'
      · cases hsc : splitLines cs with
        | nil => rw [hsc] at hx'; simp at hx'
        | cons l0 ls0 =>
          rw [hsc] at hx'
          simp only [List.tail_cons] at hx'
          exact splitLines_no_newline cs x
            (by rw [hsc]; exact List.mem_cons_of_mem l0 hx')

theorem splitLines_of_no_newline : ∀ l : List Char, '\n' ∉ l → splitLines l = [l]
  | [], _ => rfl
  | c :: cs, h => by
    have hc : ¬ (c = '\n') := by
      intro hh
      subst hh
      exact h (List.mem_cons_self _ _)
    have hcs : '\n' ∉ cs := fun hmem => h (List.mem_cons_of_mem c hmem)
    simp only [splitLines, if_neg hc, splitLines_of_no_newline cs hcs]
    simp

theorem splitLines_append_newline : ∀ (a b : List Char), '\n' ∉ a →
    splitLines (a ++ '\n' :: b) = a :: splitLines b
  | [], b, _ => by simp [splitLines]
  | c :: a, b, h => by
    have hc : ¬ (c = '\n') := by
      intro hh
      subst hh
      exact h (List.mem_cons_self _ _)
    have ha : '\n' ∉ a := fun hm => h (List.mem_cons_of_mem c hm)
    rw [List.cons_append]
    simp only [splitLines, if_neg hc]
    rw [splitLines_append_newline a b ha]
    simp

theorem splitLines_joinLines : ∀ L : List (List Char), (∀ x ∈ L, '\n' ∉ x) → L ≠ [] →
    splitLines (joinLines L) = L
  | [], _, h => absurd rfl h
  | [l], h, _ => by
    simp only [joinLines]
    exact splitLines_of_no_newline l (h l (List.mem_cons_self _ _))
  | l :: l' :: ls, h, _ => by
    simp only [joinLines]
    rw [splitLines_append_newline _ _ (h l (List.mem_cons_self _ _))]
    rw [splitLines_joinLines (l' :: ls) (fun x hx => h x (List.mem_cons_of_mem l hx))
      (by simp)]

theorem joinLines_ne_nil : ∀ (l : List Char) (ls : List (List Char)), l ≠ [] →
    joinLines (l :: ls) ≠ []
  | l, [], h => by simpa [joinLines] using h
  | l, l' :: ls, h => by
    simp only [joinLines]
    intro hc
    exact h (List.append_eq_nil.mp hc).1

theorem head?_append_left (a b : List Char) (h : a ≠ []) : (a ++ b).head? = a.head? := by
  cases a with
  | nil => exact absurd rfl h
  | cons c a => rfl

theorem getLast?_append_right (a b : List Char) (h : b ≠ []) :
    (a ++ b).getLast? = b.getLast? := by
  rw [← List.head?_reverse, ← List.head?_reverse, List.reverse_append]
  exact head?_append_left _ _ (by simpa using h)

theorem getLast?_cons_of_ne_nil (c : Char) (l : List Char) (h : l ≠ []) :
    (c :: l).getLast? = l.getLast? := by
  cases l with
  | nil => exact absurd rfl h
  | cons b m => exact List.getLast?_cons_cons

theorem joinLines_head_not_ws : ∀ L : List (List Char),
    (∀ e ∈ L, e ≠ []) → (∀ e ∈ L, ∀ c ∈ e.head?, isWs c = false) →
    ∀ c ∈ (joinLines L).head?, isWs c = false
  | [], _, _, c, hc => by simp [joinLines] at hc
  | [l], hne, hh, c, hc =>
    hh l (List.mem_cons_self _ _) c (by simpa [joinLines] using hc)
  | l :: l' :: ls, hne, hh, c, hc => by
    simp only [joinLines] at hc
    rw [Option.mem_def, head?_append_left _ _ (hne l (List.mem_cons_self _ _))] at hc
    exact hh l (List.mem_cons_self _ _) c hc

theorem joinLines_getLast_not_ws : ∀ L : List (List Char),
    (∀ e ∈ L, e ≠ []) → (∀ e ∈ L, ∀ c ∈ e.getLast?, isWs c = false) →
    ∀ c ∈ (joinLines L).getLast?, isWs c = false
  | [], _, _, c, hc => by simp [joinLines] at hc
  | [l], hne, hh, c, hc =>
    hh l (List.mem_cons_self _ _) c (by simpa [joinLines] using hc)
  | l :: l' :: ls, hne, hh, c, hc => by
    simp only [joinLines] at hc
    rw [Option.mem_def, getLast?_append_right _ _ (by simp),
      getLast?_cons_of_ne_nil _ _ (joinLines_ne_nil l' ls (hne l' (by simp)))] at hc
    exact joinLines_getLast_not_ws (l' :: ls)
      (fun e he => hne e (List.mem_cons_of_mem l he))
      (fun e he => hh e (List.mem_cons_of_mem l he)) c hc

theorem hasCRLF_cons_ne (c : Char) (l : List Char) (h : ¬ (c = '\r')) :
    hasCRLF (c :: l) = hasCRLF l := by
  cases l with
  | nil => rfl
  | cons d m =>
    simp only [hasCRLF]
    simp [h]

theorem hasCRLF_of_no_newline : ∀ l : List Char, '\n' ∉ l → hasCRLF l = false
  | [], _ => rfl
  | [_], _ => rfl
  | c :: d :: cs, h => by
    have hd : ¬ (d = '\n') := by
      intro hh
      subst hh
      exact h (List.mem_cons_of_mem c (List.mem_cons_self _ _))
    have h' : '\n' ∉ d :: cs := fun hm => h (List.mem_cons_of_mem c hm)
    simp only [hasCRLF, Bool.or_eq_false_iff]
    exact ⟨decide_eq_false fun hand => hd hand.2, hasCRLF_of_no_newline (d :: cs) h'⟩

theorem normalizeCRLF_eq_self : ∀ l : List Char, hasCRLF l = false → normalizeCRLF l = l
  | [], _ => rfl
  | [c], _ => rfl
  | c :: d :: cs, h => by
    simp only [hasCRLF, Bool.or_eq_false_iff] at h
    have hcd := of_decide_eq_false h.1
    simp only [normalizeCRLF, if_neg hcd]
    rw [normalizeCRLF_eq_self (d :: cs) h.2]

theorem hasCRLF_append : ∀ (a b : List Char), hasCRLF a = false → hasCRLF b = false →
    (a.getLast? = some '\r' → b.head? = some '\n' → False) →
    hasCRLF (a ++ b) = false
  | [], _, _, hb, _ => hb
  | [c], b, _, hb, hcross => by
    cases b with
    | nil => rfl
    | cons d bs =>
      simp only [List.singleton_append]
      simp only [hasCRLF, Bool.or_eq_false_iff]
      refine ⟨decide_eq_false ?_, hb⟩
      intro hand
      obtain ⟨rfl, rfl⟩ := hand
      exact hcross rfl rfl
  | c :: c' :: as, b, ha, hb, hcross => by
    simp only [hasCRLF, Bool.or_eq_false_iff] at ha
    simp only [List.cons_append]
    simp only [hasCRLF, Bool.or_eq_false_iff]
    refine ⟨ha.1, ?_⟩
    exact hasCRLF_append (c' :: as) b ha.2 hb
      (fun h1 h2 => hcross ((List.getLast?_cons_cons).trans h1) h2)

theorem hasCRLF_joinLines : ∀ L : List (List Char),
    (∀ e ∈ L, hasCRLF e = false ∧ e.getLast? ≠ some '\r') →
    hasCRLF (joinLines L) = false
  | [], _ => rfl
  | [l], h => (h l (List.mem_cons_self _ _)).1
  | l :: l' :: ls, h => by
    simp only [joinLines]
    refine hasCRLF_append l ('\n' :: joinLines (l' :: ls))
      (h l (List.mem_cons_self _ _)).1 ?_ ?_
    · rw [hasCRLF_cons_ne _ _ (by decide)]
      exact hasCRLF_joinLines (l' :: ls) (fun e he => h e (List.mem_cons_of_mem l he))
    · intro h1 _
      exact (h l (List.mem_cons_self _ _)).2 h1

/-! The shape of formatted body lines. -/

/-- A body line the formatter emits: nonempty, fully trimmed, free of
newlines and beginning with a recognised numbered or bullet marker. -/
def goodLine (e : List Char) : Prop :=
  e ≠ [] ∧ trimChars e = e ∧ '\n' ∉ e ∧ startsWithMarker e = true

theorem isWs_false_of_isDigit (c : Char) (h : c.isDigit = true) : isWs c = false := by
  simp only [isWs, decide_eq_false_iff_not]
  rintro (rfl | rfl | rfl | rfl | rfl | rfl) <;> revert h <;> decide

theorem marker_head (e : List Char) (h : startsWithMarker e = true) :
    ∃ c cs, e = c :: cs ∧ (c = '-' ∨ c = '*' ∨ c = '•' ∨ c.isDigit = true) := by
  cases e with
  | nil => simp [startsWithMarker] at h
  | cons c cs =>
    refine ⟨c, cs, rfl, ?_⟩
    simp only [startsWithMarker] at h
    rcases Bool.or_eq_true_iff.mp h with h | h
    · rcases Bool.or_eq_true_iff.mp h with h | h
      · rcases Bool.or_eq_true_iff.mp h with h | h
        · exact Or.inl (of_decide_eq_true h)
        · exact Or.inr (Or.inl (of_decide_eq_true h))
      · exact Or.inr (Or.inr (Or.inl (of_decide_eq_true h)))
    · exact Or.inr (Or.inr (Or.inr (Bool.and_eq_true_iff.mp h).1))

theorem marker_not_stripped (e : List Char) (h : startsWithMarker e = true) :
    pHash e = false ∧ pIntro e = false ∧ pSummary e = false := by
  obtain ⟨c, cs, rfl, hc⟩ := marker_head e h
  have hne : c ≠ '#' ∧ c ≠ 'I' ∧ c ≠ 'S' := by
    rcases hc with rfl | rfl | rfl | hd
    · exact ⟨by decide, by decide, by decide⟩
    · exact ⟨by decide, by decide, by decide⟩
    · exact ⟨by decide, by decide, by decide⟩
    · refine ⟨?_, ?_, ?_⟩ <;> (intro heq; rw [heq] at hd; exact absurd hd (by decide))
  have h1 : '#' ≠ c := Ne.symm hne.1
  have h2 : 'I' ≠ c := Ne.symm hne.2.1
  have h3 : 'S' ≠ c := Ne.symm hne.2.2
  refine ⟨?_, ?_, ?_⟩
  · simp [pHash, startsWithL, h1]
  · simp [pIntro, introChars, startsWithL, h2]
  · simp [pSummary, summaryChars, startsWithL, h3]

theorem goodLine_head_not_ws (e : List Char) (h : goodLine e) :
    ∀ c ∈ e.head?, isWs c = false := by
  intro c hc
  rw [← h.2.1] at hc
  exact trimChars_head_not_ws e c hc

theorem goodLine_getLast_not_ws (e : List Char) (h : goodLine e) :
    ∀ c ∈ e.getLast?, isWs c = false := by
  intro c hc
  rw [← h.2.1] at hc
  exact trimChars_getLast_not_ws e c hc

theorem goodLine_getLast_ne_cr (e : List Char) (h : goodLine e) :
    e.getLast? ≠ some '\r' := by
  intro hc
  exact absurd (goodLine_getLast_not_ws e h '\r' hc) (by decide)

theorem formatLine_good (line : List Char) (hn : '\n' ∉ line)
    (hne : formatLine line ≠ []) : goodLine (formatLine line) := by
  by_cases h0 : trimChars line = []
  · exact absurd (by simp [formatLine, h0]) hne
  · have hmem : '\n' ∉ trimChars line := fun hm => hn (mem_trimChars _ _ hm)
    by_cases h1 : startsWithMarker (trimChars line) = true
    · rw [formatLine, if_neg h0, if_pos h1]
      exact ⟨h0, trimChars_idem line, hmem, h1⟩
    · rw [formatLine, if_neg h0, if_neg h1]
      refine ⟨by simp, ?_, ?_, by simp [startsWithMarker]⟩
      · apply trimChars_eq_self
        · intro c hc
          obtain rfl : c = '-' := by simpa [eq_comm] using hc
          decide
        · intro c hc
          rw [getLast?_cons_of_ne_nil _ _ (by simp),
            getLast?_cons_of_ne_nil _ _ h0] at hc
          exact trimChars_getLast_not_ws line c hc
      · intro hm
        rcases List.mem_cons.mp hm with heq | hm2
        · exact absurd heq (by decide)
        rcases List.mem_cons.mp hm2 with heq | hm3
        · exact absurd heq (by decide)
        · exact hmem hm3

theorem formatLine_fixed (e : List Char) (h : goodLine e) : formatLine e = e := by
  obtain ⟨hne, htrim, _, hm⟩ := h
  simp only [formatLine, htrim, if_neg hne, if_pos hm]

theorem bodyLines_good (s : List Char) : ∀ e ∈ bodyLines s, goodLine e := by
  intro e he
  unfold bodyLines at he
  rw [List.mem_filter] at he
  obtain ⟨hmap, hne⟩ := he
  rw [List.mem_map] at hmap
  obtain ⟨line, hline, rfl⟩ := hmap
  have hn : '\n' ∉ line := splitLines_no_newline _ line hline
  apply formatLine_good line hn
  intro h0
  rw [h0] at hne
  simp at hne

theorem headingChars_facts (k : AssistantType) :
    headingChars k ≠ [] ∧ '\n' ∉ headingChars k ∧ hasCRLF (headingChars k) = false ∧
      pHash (headingChars k) = true ∧ (headingChars k).getLast? ≠ some '\r' ∧
      (headingChars k).head? = some '#' := by
  cases k <;> exact ⟨by decide, by decide, by decide, by decide, by decide, by decide⟩

/-- Running the preamble-stripping phase over a formatter output removes
exactly the heading and its separating blank line, leaving the body intact. -/
theorem preprocess_formatted (k : AssistantType) (B : List (List Char)) (hB : B ≠ [])
    (hg : ∀ e ∈ B, goodLine e) :
    preprocess (headingChars k ++ '\n' :: '\n' :: joinLines B) = joinLines B := by
  obtain ⟨hne, hnl, hcrlf, hhash, hcr, hhead⟩ := headingChars_facts k
  have hene : ∀ e ∈ B, e ≠ [] := fun e he => (hg e he).1
  have henl : ∀ e ∈ B, '\n' ∉ e := fun e he => (hg e he).2.2.1
  have hJne : joinLines B ≠ [] := by
    cases B with
    | nil => exact absurd rfl hB
    | cons b bs => exact joinLines_ne_nil b bs (hene b (List.mem_cons_self _ _))
  have hJhead : ∀ c ∈ (joinLines B).head?, isWs c = false :=
    joinLines_head_not_ws B hene (fun e he => goodLine_head_not_ws e (hg e he))
  have hJlast : ∀ c ∈ (joinLines B).getLast?, isWs c = false :=
    joinLines_getLast_not_ws B hene (fun e he => goodLine_getLast_not_ws e (hg e he))
  have hJcrlf : hasCRLF (joinLines B) = false :=
    hasCRLF_joinLines B (fun e he =>
      ⟨hasCRLF_of_no_newline e (henl e he), goodLine_getLast_ne_cr e (hg e he)⟩)
  have hJtrim : trimChars (joinLines B) = joinLines B :=
    trimChars_eq_self _ hJhead hJlast
  have hsplitJ : splitLines (joinLines B) = B := splitLines_joinLines B henl hB
  have hmapKeep : ∀ (p : List Char → Bool), (∀ e ∈ B, p e = false) →
      B.map (fun ln => if p ln then [] else ln) = B := by
    intro p hp
    have hcongr : B.map (fun ln => if p ln then [] else ln) = B.map id :=
      List.map_congr_left (fun e he => by simp [hp e he])
    rw [hcongr, List.map_id]
  have hpB : ∀ e ∈ B, pHash e = false :=
    fun e he => (marker_not_stripped e (hg e he).2.2.2).1
  have hiB : ∀ e ∈ B, pIntro e = false :=
    fun e he => (marker_not_stripped e (hg e he).2.2.2).2.1
  have hsB : ∀ e ∈ B, pSummary e = false :=
    fun e he => (marker_not_stripped e (hg e he).2.2.2).2.2
  have h1 : normalizeCRLF (headingChars k ++ '\n' :: '\n' :: joinLines B) =
      headingChars k ++ '\n' :: '\n' :: joinLines B := by
    apply normalizeCRLF_eq_self
    apply hasCRLF_append _ _ hcrlf
    · rw [hasCRLF_cons_ne _ _ (by decide), hasCRLF_cons_ne _ _ (by decide)]
      exact hJcrlf
    · intro hl _
      exact hcr hl
  have h2 : trimChars (headingChars k ++ '\n' :: '\n' :: joinLines B) =
      headingChars k ++ '\n' :: '\n' :: joinLines B := by
    apply trimChars_eq_self
    · intro c hc
      rw [Option.mem_def, head?_append_left _ _ hne, hhead] at hc
      obtain rfl : c = '#' := by simpa [eq_comm] using hc
      decide
    · intro c hc
      rw [Option.mem_def, getLast?_append_right _ _ (by simp),
        getLast?_cons_of_ne_nil _ _ (by simp),
        getLast?_cons_of_ne_nil _ _ hJne] at hc
      exact hJlast c hc
  have hsplit1 : splitLines (headingChars k ++ '\n' :: '\n' :: joinLines B) =
      headingChars k :: [] :: B := by
    rw [splitLines_append_newline _ _ hnl]
    simp [splitLines, hsplitJ]
  have hstrip1 : stripLines pHash (headingChars k ++ '\n' :: '\n' :: joinLines B) =
      '\n' :: '\n' :: joinLines B := by
    unfold stripLines
    rw [hsplit1]
    simp only [List.map_cons, if_pos hhash, ite_self]
    rw [hmapKeep pHash hpB]
    cases B with
    | nil => exact absurd rfl hB
    | cons b bs => simp [joinLines]
  have htrim2 : trimChars ('\n' :: '\n' :: joinLines B) = joinLines B := by
    rw [trimChars_cons_ws _ _ (by decide), trimChars_cons_ws _ _ (by decide), hJtrim]
  have hstripKeep : ∀ (p : List Char → Bool), (∀ e ∈ B, p e = false) →
      stripLines p (joinLines B) = joinLines B := by
    intro p hp
    unfold stripLines
    rw [hsplitJ, hmapKeep p hp]
  simp only [preprocess]
  rw [h1, h2, hstrip1, htrim2, hstripKeep pIntro hiB, hJtrim,
    hstripKeep pSummary hsB, hJtrim]

/-- Re-running the formatter pipeline on formatter output reproduces the
same body lines. -/
theorem bodyLines_formatChars (s : List Char) (k : AssistantType) :
    bodyLines (formatChars s k) = bodyLines s := by
  by_cases hB : bodyLines s = []
  · rw [formatChars, hB]
    cases k <;> decide
  · have hg := bodyLines_good s
    have hpp : preprocess (formatChars s k) = joinLines (bodyLines s) :=
      preprocess_formatted k (bodyLines s) hB hg
    calc bodyLines (formatChars s k)
        = ((splitLines (preprocess (formatChars s k))).map formatLine).filter
            (fun l => !l.isEmpty) := rfl
      _ = ((splitLines (joinLines (bodyLines s))).map formatLine).filter
            (fun l => !l.isEmpty) := by rw [hpp]
      _ = ((bodyLines s).map formatLine).filter (fun l => !l.isEmpty) := by
            rw [splitLines_joinLines _ (fun e he => (hg e he).2.2.1) hB]
      _ = (bodyLines s).filter (fun l => !l.isEmpty) := by
            have hcongr : (bodyLines s).map formatLine = (bodyLines s).map id :=
              List.map_congr_left (fun e he => formatLine_fixed e (hg e he))
            rw [hcongr, List.map_id]
      _ = bodyLines s := by
            refine List.filter_eq_self.mpr ?_
            intro e he
            cases e with
            | nil => exact absurd rfl (hg [] he).1
            | cons a l => rfl

/-! The component state and its update events. -/

/-- The four-state status field of an AnalysisResult. -/
inductive Status where
  | idle
  | loading
  | complete
  | error
  deriving DecidableEq, Repr

/-- The AnalysisResult record from src/config/assistants: kind tag,
formatted content, status, and an error message present only when set. -/
structure AnalysisResult where
  type : AssistantType
  content : String
  status : Status
  error : Option String := none
  deriving DecidableEq, Repr

/-- The part of a browser File object the component inspects: its
declared MIME type. -/
structure JSFile where
  type : String
  deriving DecidableEq, Repr

/-- initialResults (FileUpload.tsx lines 8-12). -/
def initialResults : AssistantType → AnalysisResult
  | .INSIGHTS => ⟨.INSIGHTS, "", .idle, none⟩
  | .ACHIEVEMENTS => ⟨.ACHIEVEMENTS, "", .idle, none⟩
  | .RESEARCH_IDEAS => ⟨.RESEARCH_IDEAS, "", .idle, none⟩

/-- The component state together with its in-flight asynchronous work:
the two useState hooks (file, results), the number of pending
files.create calls started by handleUpload, and the number of running
processWithAssistant jobs per kind. -/
structure Config where
  file : Option JSFile
  results : AssistantType → AnalysisResult
  uploading : Nat
  running : AssistantType → Nat

def initConfig : Config :=
  { file := none, results := initialResults, uploading := 0, running := fun _ => 0 }

/-- The results map written on a failed validation (lines 67-72): the
spread of initialResults with the INSIGHTS slot overridden to an error
record. -/
def rejectResults : AssistantType → AnalysisResult := fun k =>
  if k = AssistantType.INSIGHTS then
    ⟨AssistantType.INSIGHTS, "", Status.error, some "Please upload a PDF file"⟩
  else initialResults k

/-- handleFileChange (lines 60-74): with no selected file nothing
happens; a file whose declared type is exactly application/pdf is stored
and the results reset; anything else clears the file and flags the
INSIGHTS slot with a validation error, the other slots staying initial. -/
def handleFileChange (files : List JSFile) (c : Config) : Config :=
  match files with
  | [] => c
  | f :: _ =>
    if f.type = "application/pdf" then
      { c with file := some f, results := initialResults }
    else
      { c with file := none, results := rejectResults }

/-- The Analyze button is disabled while any kind is loading (line 328). -/
def someLoading (r : AssistantType → AnalysisResult) : Bool :=
  decide ((r .INSIGHTS).status = .loading) ||
    decide ((r .ACHIEVEMENTS).status = .loading) ||
    decide ((r .RESEARCH_IDEAS).status = .loading)

/-- Clicking Analyze (handleUpload, lines 224-236): the files.create
call starts; nothing is written to results yet. -/
def clickC (c : Config) : Config := { c with uploading := c.uploading + 1 }

/-- files.create resolved: handleUpload fans out the three
processWithAssistant calls, each of which synchronously marks its kind
loading by spreading the previous record (lines 82-85 and 238-242). -/
def startLoading (c : Config) : Config :=
  { c with
    results := fun k => { c.results k with status := Status.loading },
    uploading := c.uploading - 1,
    running := fun k => c.running k + 1 }

/-- files.create rejected: the catch block at lines 243-251 marks every
kind error with the upload failure message, spreading the previous
record; no job is started. -/
def failUpload (msg : String) (c : Config) : Config :=
  { c with
    results := fun k =>
      { c.results k with status := Status.error, error := some msg },
    uploading := c.uploading - 1 }

/-- processWithAssistant succeeded for kind k (lines 208-211): the slot
is replaced by a fresh record carrying the formatted content, status
complete, and no error field. -/
def finishJob (k : AssistantType) (raw : String) (c : Config) : Config :=
  { c with
    results := fun j =>
      if j = k then ⟨k, validateAndFormatResponse raw k, Status.complete, none⟩
      else c.results j,
    running := fun j => if j = k then c.running k - 1 else c.running j }

/-- processWithAssistant failed for kind k (lines 212-221): the catch
block spreads the previous record and sets status error with the thrown
message. -/
def failJob (k : AssistantType) (msg : String) (c : Config) : Config :=
  { c with
    results := fun j =>
      if j = k then { c.results k with status := Status.error, error := some msg }
      else c.results j,
    running := fun j => if j = k then c.running k - 1 else c.running j }

/-- The observable events of the pipeline. -/
inductive Event where
  | select (f : JSFile)
  | click
  | uploadOk
  | uploadFail (msg : String)
  | jobOk (k : AssistantType) (raw : String)
  | jobFail (k : AssistantType) (msg : String)
  deriving DecidableEq, Repr

/-- One step of the pipeline.  User events (select, click) are gated by
the rendered UI: the file input is always active, the Analyze button
only while a file is stored and no kind is loading.  Remote events
resolve a pending upload or a running job; their payloads (raw model
text, error messages) come from the nondeterministic remote service. -/
inductive StepE : Config → Event → Config → Prop where
  | select (c : Config) (f : JSFile) : StepE c (.select f) (handleFileChange [f] c)
  | click (c : Config) (hf : c.file ≠ none) (hl : someLoading c.results = false) :
      StepE c .click (clickC c)
  | uploadOk (c : Config) (h : c.uploading ≠ 0) : StepE c .uploadOk (startLoading c)
  | uploadFail (c : Config) (msg : String) (h : c.uploading ≠ 0) :
      StepE c (.uploadFail msg) (failUpload msg c)
  | jobOk (c : Config) (k : AssistantType) (raw : String) (h : c.running k ≠ 0) :
      StepE c (.jobOk k raw) (finishJob k raw c)
  | jobFail (c : Config) (k : AssistantType) (msg : String) (h : c.running k ≠ 0) :
      StepE c (.jobFail k msg) (failJob k msg c)

/-- Executions from the initial mount, recording the event trace. -/
inductive Exec : List Event → Config → Prop where
  | init : Exec [] initConfig
  | step {tr : List Event} {c : Config} {e : Event} {c' : Config} :
      Exec tr c → StepE c e c' → Exec (tr ++ [e]) c'

theorem handleFileChange_running (files : List JSFile) (c : Config) :
    (handleFileChange files c).running = c.running := by
  cases files with
  | nil => rfl
  | cons f fs =>
    simp only [handleFileChange]
    split <;> rfl

/-- The formatter always emits at least the heading, so completed
content is never the empty string. -/
theorem validateAndFormatResponse_ne_empty (raw : String) (k : AssistantType) :
    validateAndFormatResponse raw k ≠ "" := by
  intro h
  have hd2 : formatChars raw.toList k = [] := congrArg String.data h
  rw [formatChars] at hd2
  exact List.cons_ne_nil _ _ (List.append_eq_nil.mp hd2).2

/-- A job can only be running after some successful upload launched it. -/
theorem running_needs_upload {tr : List Event} {c : Config} (hx : Exec tr c) :
    ∀ k : AssistantType, c.running k ≠ 0 → Event.uploadOk ∈ tr := by
  induction hx with
  | init => intro k h; exact absurd rfl h
  | step hexec hstep ih =>
    intro k h
    cases hstep with
    | select f =>
      rw [handleFileChange_running] at h
      exact List.mem_append_left _ (ih k h)
    | click hf hl => exact List.mem_append_left _ (ih k h)
    | uploadOk hu => exact List.mem_append_right _ (by simp)
    | uploadFail msg hu => exact List.mem_append_left _ (ih k h)
    | jobOk k' raw hr =>
      refine List.mem_append_left _ (ih k (fun h0 => h ?_))
      simp only [finishJob]
      by_cases hk : k = k'
      · subst hk
        simp [h0]
      · simp [hk, h0]
    | jobFail k' msg hr =>
      refine List.mem_append_left _ (ih k (fun h0 => h ?_))
      simp only [failJob]
      by_cases hk : k = k'
      · subst hk
        simp [h0]
      · simp [hk, h0]

/-- The per-record invariant that survives all updates: completed slots
carry nonempty formatter output and no error field, and error slots
carry a message. -/
def resultInv (r : AnalysisResult) : Prop :=
  (r.status = Status.complete → r.content ≠ "" ∧ r.error = none) ∧
  (r.status = Status.error → r.error ≠ none)

theorem resultInv_initial (k : AssistantType) : resultInv (initialResults k) := by
  cases k <;>
    exact ⟨fun h => by simp [initialResults] at h, fun h => by simp [initialResults] at h⟩

theorem resultInv_loading (r : AnalysisResult) :
    resultInv { r with status := Status.loading } :=
  ⟨fun h => by simp at h, fun h => by simp at h⟩

theorem resultInv_error (r : AnalysisResult) (msg : String) :
    resultInv { r with status := Status.error, error := some msg } :=
  ⟨fun h => by simp at h, fun _ => by simp⟩

theorem resultInv_complete (k : AssistantType) (raw : String) :
    resultInv ⟨k, validateAndFormatResponse raw k, Status.complete, none⟩ :=
  ⟨fun _ => ⟨validateAndFormatResponse_ne_empty raw k, rfl⟩, fun h => by simp at h⟩

/-! Concrete execution fixtures. -/

def pdfFile : JSFile := ⟨"application/pdf"⟩

def txtFile : JSFile := ⟨"text/plain"⟩

def cfgSelect : Config := handleFileChange [pdfFile] initConfig

def cfgClick : Config := clickC cfgSelect

def cfgLoad : Config := startLoading cfgClick

def cfgJ1 : Config := finishJob .INSIGHTS "x" cfgLoad

def cfgJ2 : Config := finishJob .ACHIEVEMENTS "x" cfgJ1

def cfgJ3 : Config := finishJob .RESEARCH_IDEAS "x" cfgJ2

def cfgClick2 : Config := clickC cfgJ3

def cfgStale : Config := startLoading cfgClick2

theorem execSelect : Exec [Event.select pdfFile] cfgSelect :=
  Exec.init.step (StepE.select _ _)

theorem execClick : Exec [Event.select pdfFile, Event.click] cfgClick :=
  execSelect.step (StepE.click _ (by decide) (by decide))

theorem execLoad : Exec [Event.select pdfFile, Event.click, Event.uploadOk] cfgLoad :=
  execClick.step (StepE.uploadOk _ (by decide))

theorem execStale :
    Exec [Event.select pdfFile, Event.click, Event.uploadOk,
      Event.jobOk .INSIGHTS "x", Event.jobOk .ACHIEVEMENTS "x",
      Event.jobOk .RESEARCH_IDEAS "x", Event.click, Event.uploadOk] cfgStale := by
  have h4 : Exec [Event.select pdfFile, Event.click, Event.uploadOk,
      Event.jobOk .INSIGHTS "x"] cfgJ1 :=
    execLoad.step (StepE.jobOk _ _ "x" (by decide))
  have h5 : Exec [Event.select pdfFile, Event.click, Event.uploadOk,
      Event.jobOk .INSIGHTS "x", Event.jobOk .ACHIEVEMENTS "x"] cfgJ2 :=
    h4.step (StepE.jobOk _ _ "x" (by decide))
  have h6 : Exec [Event.select pdfFile, Event.click, Event.uploadOk,
      Event.jobOk .INSIGHTS "x", Event.jobOk .ACHIEVEMENTS "x",
      Event.jobOk .RESEARCH_IDEAS "x"] cfgJ3 :=
    h5.step (StepE.jobOk _ _ "x" (by decide))
  have h7 : Exec [Event.select pdfFile, Event.click, Event.uploadOk,
      Event.jobOk .INSIGHTS "x", Event.jobOk .ACHIEVEMENTS "x",
      Event.jobOk .RESEARCH_IDEAS "x", Event.click] cfgClick2 :=
    h6.step (StepE.click _ (by decide) (by decide))
  exact h7.step (StepE.uploadOk _ (by decide))

theorem handleFileChange_pdf (f : JSFile) (c : Config)
    (h : f.type = "application/pdf") :
    handleFileChange [f] c = { c with file := some f, results := initialResults } := by
  simp only [handleFileChange, if_pos h]

theorem handleFileChange_nonpdf (f : JSFile) (c : Config)
    (h : f.type ≠ "application/pdf") :
    handleFileChange [f] c = { c with file := none, results := rejectResults } := by
  simp only [handleFileChange, if_neg h]

theorem resultInv_reject (k : AssistantType) : resultInv (rejectResults k) := by
  by_cases hk : k = AssistantType.INSIGHTS
  · subst hk
    show resultInv
      ⟨AssistantType.INSIGHTS, "", Status.error, some "Please upload a PDF file"⟩
    exact ⟨fun h => by simp at h, fun _ => by simp⟩
  · show resultInv (if k = AssistantType.INSIGHTS then
      ⟨AssistantType.INSIGHTS, "", Status.error, some "Please upload a PDF file"⟩
      else initialResults k)
    rw [if_neg hk]
    exact resultInv_initial k

theorem resultInv_handleFileChange (f : JSFile) (c : Config) (k : AssistantType) :
    resultInv ((handleFileChange [f] c).results k) := by
  by_cases hp : f.type = "application/pdf"
  · rw [handleFileChange_pdf f c hp]
    exact resultInv_initial k
  · rw [handleFileChange_nonpdf f c hp]
    exact resultInv_reject k

/-- C1 (amended): at every reachable state, a record with status
complete carries nonempty content and no error field, and a record with
status error carries an error message.  The biconditionals of the
original claim fail (see the counterexample): the loading and error
updates spread the previous record, so stale content or a stale error
field can accompany status loading or error across repeated analyze
invocations. -/
theorem c1_status_content_error (tr : List Event) (c : Config) (hx : Exec tr c)
    (k : AssistantType) :
    ((c.results k).status = Status.complete →
      (c.results k).content ≠ "" ∧ (c.results k).error = none) ∧
    ((c.results k).status = Status.error → (c.results k).error ≠ none) := by
  suffices h : resultInv (c.results k) from h
  induction hx with
  | init => exact resultInv_initial k
  | step hexec hstep ih =>
    cases hstep with
    | select f => exact resultInv_handleFileChange f _ k
    | click hf hl => exact ih
    | uploadOk hu => exact resultInv_loading _
    | uploadFail msg hu => exact resultInv_error _ msg
    | jobOk k' raw hr =>
      simp only [finishJob]
      by_cases hk : k = k'
      · rw [if_pos hk]
        exact resultInv_complete k' raw
      · rw [if_neg hk]
        exact ih
    | jobFail k' msg hr =>
      simp only [failJob]
      by_cases hk : k = k'
      · rw [if_pos hk]
        exact resultInv_error _ msg
      · rw [if_neg hk]
        exact ih

/-- Witness for C1 (amended) at the initial configuration. -/
theorem c1_status_content_error_witness :
    Exec ([] : List Event) initConfig ∧
    (((initConfig.results AssistantType.INSIGHTS).status = Status.complete →
      (initConfig.results AssistantType.INSIGHTS).content ≠ "" ∧
      (initConfig.results AssistantType.INSIGHTS).error = none) ∧
    ((initConfig.results AssistantType.INSIGHTS).status = Status.error →
      (initConfig.results AssistantType.INSIGHTS).error ≠ none)) :=
  ⟨Exec.init, c1_status_content_error [] initConfig Exec.init AssistantType.INSIGHTS⟩

/-- C1 counterexample: after a completed first analysis of the stored
file, re-invoking analyze reaches a state where the INSIGHTS record is
loading while still holding the previous nonempty content, refuting
content nonempty iff status complete. -/
theorem c1_counterexample :
    Exec [Event.select pdfFile, Event.click, Event.uploadOk,
      Event.jobOk .INSIGHTS "x", Event.jobOk .ACHIEVEMENTS "x",
      Event.jobOk .RESEARCH_IDEAS "x", Event.click, Event.uploadOk] cfgStale ∧
    (cfgStale.results AssistantType.INSIGHTS).content ≠ "" ∧
    (cfgStale.results AssistantType.INSIGHTS).status ≠ Status.complete :=
  ⟨execStale, by decide, by decide⟩

/-- C2 (amended): every completion or failure update performed by an
analysis job was preceded in the trace by the successful-upload event
that launched the job and set every kind, including this one, to
loading. -/
theorem c2_terminal_preceded_by_upload (tr : List Event) (c c' : Config) (e : Event)
    (k : AssistantType) (hx : Exec tr c) (hs : StepE c e c')
    (he : (∃ raw, e = Event.jobOk k raw) ∨ (∃ msg, e = Event.jobFail k msg)) :
    Event.uploadOk ∈ tr := by
  rcases he with ⟨raw, rfl⟩ | ⟨msg, rfl⟩
  · cases hs with
    | jobOk k raw h => exact running_needs_upload hx k h
  · cases hs with
    | jobFail k msg h => exact running_needs_upload hx k h

/-- Witness for C2 (amended): a completion after the standard
select-click-upload prefix. -/
theorem c2_terminal_preceded_by_upload_witness :
    Event.uploadOk ∈ [Event.select pdfFile, Event.click, Event.uploadOk] :=
  c2_terminal_preceded_by_upload _ _ _ _ AssistantType.INSIGHTS execLoad
    (StepE.jobOk _ .INSIGHTS "x" (by decide)) (Or.inl ⟨"x", rfl⟩)

/-- C2 counterexample: selecting a non-PDF file moves the INSIGHTS slot
from idle directly to error on a trace containing no upload and no
loading state, refuting that every kind passes through loading before
error. -/
theorem c2_counterexample :
    Exec [Event.select txtFile] (handleFileChange [txtFile] initConfig) ∧
    (initConfig.results AssistantType.INSIGHTS).status = Status.idle ∧
    ((handleFileChange [txtFile] initConfig).results AssistantType.INSIGHTS).status =
      Status.error ∧
    Event.uploadOk ∉ [Event.select txtFile] :=
  ⟨Exec.init.step (StepE.select _ _), rfl, by decide, by decide⟩

def cfgFail (msg : String) : Config := failUpload msg cfgClick

/-- C6: when the single files.create call rejects, the catch block marks
all three kinds error with the same upload failure message; no job is
started and no kind is ever loading anywhere along the execution. -/
theorem c6_upload_failure (msg : String) :
    Exec [Event.select pdfFile, Event.click, Event.uploadFail msg] (cfgFail msg) ∧
    (∀ k, ((cfgFail msg).results k).status = Status.error ∧
      ((cfgFail msg).results k).error = some msg) ∧
    (∀ k, (cfgFail msg).running k = 0) ∧
    (∀ k, (initConfig.results k).status ≠ Status.loading ∧
      (cfgSelect.results k).status ≠ Status.loading ∧
      (cfgClick.results k).status ≠ Status.loading ∧
      ((cfgFail msg).results k).status ≠ Status.loading) := by
  refine ⟨execClick.step (StepE.uploadFail _ msg (by decide)), ?_, ?_, ?_⟩
  · intro k
    cases k <;> exact ⟨rfl, rfl⟩
  · intro k
    cases k <;> rfl
  · intro k
    cases k <;>
      exact ⟨by decide, by decide, by decide, fun h => by simp [cfgFail, failUpload] at h⟩

/-- C7: selecting a file whose declared MIME type is not
application/pdf clears the stored file, sets the INSIGHTS slot to a
validation error, and leaves the other two slots idle and empty. -/
theorem c7_nonpdf_rejected (c : Config) (f : JSFile)
    (h : f.type ≠ "application/pdf") :
    (handleFileChange [f] c).file = none ∧
    (handleFileChange [f] c).results AssistantType.INSIGHTS =
      ⟨AssistantType.INSIGHTS, "", Status.error, some "Please upload a PDF file"⟩ ∧
    (handleFileChange [f] c).results AssistantType.ACHIEVEMENTS =
      ⟨AssistantType.ACHIEVEMENTS, "", Status.idle, none⟩ ∧
    (handleFileChange [f] c).results AssistantType.RESEARCH_IDEAS =
      ⟨AssistantType.RESEARCH_IDEAS, "", Status.idle, none⟩ := by
  rw [handleFileChange_nonpdf f c h]
  exact ⟨rfl, rfl, rfl, rfl⟩

/-- Witness for C7 at a concrete non-PDF file. -/
theorem c7_nonpdf_rejected_witness :
    txtFile.type ≠ "application/pdf" ∧
    ((handleFileChange [txtFile] initConfig).file = none ∧
    (handleFileChange [txtFile] initConfig).results AssistantType.INSIGHTS =
      ⟨AssistantType.INSIGHTS, "", Status.error, some "Please upload a PDF file"⟩ ∧
    (handleFileChange [txtFile] initConfig).results AssistantType.ACHIEVEMENTS =
      ⟨AssistantType.ACHIEVEMENTS, "", Status.idle, none⟩ ∧
    (handleFileChange [txtFile] initConfig).results AssistantType.RESEARCH_IDEAS =
      ⟨AssistantType.RESEARCH_IDEAS, "", Status.idle, none⟩) :=
  ⟨by decide, c7_nonpdf_rejected initConfig txtFile (by decide)⟩

/-- C10: selecting a PDF stores the file and resets every result to its
initial record, discarding leftovers from any previous run. -/
theorem c10_pdf_resets (c : Config) (f : JSFile) (h : f.type = "application/pdf") :
    (handleFileChange [f] c).file = some f ∧
    ∀ k, (handleFileChange [f] c).results k = ⟨k, "", Status.idle, none⟩ := by
  rw [handleFileChange_pdf f c h]
  exact ⟨rfl, fun k => by cases k <;> rfl⟩

/-- Witness for C10 at a state whose INSIGHTS slot still holds completed
content, showing the reset discards it. -/
theorem c10_pdf_resets_witness :
    pdfFile.type = "application/pdf" ∧
    (cfgJ1.results AssistantType.INSIGHTS).content ≠ "" ∧
    (handleFileChange [pdfFile] cfgJ1).file = some pdfFile ∧
    (handleFileChange [pdfFile] cfgJ1).results AssistantType.INSIGHTS =
      ⟨AssistantType.INSIGHTS, "", Status.idle, none⟩ :=
  ⟨rfl, by decide, (c10_pdf_resets cfgJ1 pdfFile rfl).1,
    (c10_pdf_resets cfgJ1 pdfFile rfl).2 AssistantType.INSIGHTS⟩

/-- C5: re-running the formatter on its own output reproduces the body
exactly (only the heading is stripped and re-prepended, so the whole
output is in fact reproduced verbatim), and every body line of formatter
output already starts with a recognised numbered or bullet marker. -/
theorem c5_formatter_idempotent (s : List Char) (k : AssistantType) :
    bodyLines (formatChars s k) = bodyLines s ∧
    formatChars (formatChars s k) k = formatChars s k ∧
    ∀ e ∈ bodyLines s, startsWithMarker e = true := by
  refine ⟨bodyLines_formatChars s k, ?_, fun e he => (bodyLines_good s e he).2.2.2⟩
  rw [show formatChars (formatChars s k) k =
      headingChars k ++ '\n' :: '\n' :: joinLines (bodyLines (formatChars s k)) from rfl,
    bodyLines_formatChars s k]
  rfl

/-- C8: the formatter maps the scenario input to exactly the expected
INSIGHTS output. -/
theorem c8_scenario_insights :
    validateAndFormatResponse "Point one\n2. Point two\n- Point three"
        AssistantType.INSIGHTS =
      "## Key Research Insights\n\n- Point one\n2. Point two\n- Point three" := by
  decide

/-- C9 counterexample: the surviving line consisting of a space and x is
non-blank and unmarked, yet its output line is the trimmed line with a
bullet, not the original line with a bullet: the formatter also trims. -/
theorem c9_counterexample :
    " x".toList ∈ splitLines (preprocess "a\n x".toList) ∧
    trimChars " x".toList ≠ [] ∧
    startsWithMarker (trimChars " x".toList) = false ∧
    formatLine " x".toList ≠ '-' :: ' ' :: " x".toList := by
  exact ⟨by decide, by decide, by decide, by decide⟩

/-- C9 (amended): every surviving line that is non-blank and does not
start with a numbered or bullet marker is emitted as the trimmed line
prefixed with a dash bullet, with nothing else altered. -/
theorem c9_unmarked_line_prefixed (s line : List Char)
    (_hmem : line ∈ splitLines (preprocess s))
    (hnb : trimChars line ≠ [])
    (hnm : startsWithMarker (trimChars line) = false) :
    formatLine line = '-' :: ' ' :: trimChars line := by
  rw [formatLine, if_neg hnb, if_neg (by simp [hnm])]

/-- Witness for C9 (amended) at a concrete unmarked line. -/
theorem c9_unmarked_line_prefixed_witness :
    ("hi".toList ∈ splitLines (preprocess "hi".toList) ∧
      trimChars "hi".toList ≠ [] ∧
      startsWithMarker (trimChars "hi".toList) = false) ∧
    formatLine "hi".toList = '-' :: ' ' :: trimChars "hi".toList :=
  ⟨⟨by decide, by decide, by decide⟩,
    c9_unmarked_line_prefixed "hi".toList "hi".toList (by decide) (by decide) (by decide)⟩

/-! The per-kind analysis job protocol against the remote service. -/

/-- The run statuses the component distinguishes: the two active ones in
the while condition, the failed status checked inside the loop, and the
remaining terminal statuses (completed and the like). -/
inductive RunStatus where
  | queued
  | inProgress
  | completed
  | failed
  | cancelled
  deriving DecidableEq, Repr

/-- The while condition at line 185: status is queued or in_progress. -/
def isActive : RunStatus → Bool
  | .queued => true
  | .inProgress => true
  | _ => false

inductive Role where
  | user
  | assistant
  deriving DecidableEq, Repr

/-- One content segment of a thread message: a text segment carrying an
optional value (line 202 reads item.text?.value with a fallback), or any
non-text segment. -/
inductive ContentItem where
  | textItem (value : Option String)
  | otherItem
  deriving DecidableEq, Repr

/-- A thread message as the component reads it: author role and content
segments. -/
structure Message where
  role : Role
  content : List ContentItem
  deriving DecidableEq, Repr

/-- The remote service behaviour one job observes: the outcomes of the
thread, message and run creation calls, the sequence of run statuses the
i-th retrieval returns, and the message listing outcome. -/
structure JobEnv where
  threadCreate : Except String Unit
  messageCreate : Except String Unit
  runCreate : Except String Unit
  statuses : Nat → RunStatus
  listMessages : Except String (List Message)

/-- The polling loop at lines 184-192, given the status the i-th
retrieval returns and a fuel bound on the number of iterations modelled:
the initial retrieval happens before the loop, and the failed check sits
inside the loop after the re-retrieval, so a failed status returned by
the very first retrieval exits the loop as if terminal.  Returns none
when fuel runs out (the loop is unbounded in the code), an error when
the loop throws, and the exiting status otherwise. -/
def pollAux (k : AssistantType) (statuses : Nat → RunStatus) :
    Nat → Nat → Option (Except String RunStatus)
  | i, fuel =>
    if isActive (statuses i) then
      match fuel with
      | 0 => none
      | fuel' + 1 =>
        if statuses (i + 1) = RunStatus.failed then
          some (Except.error ("Analysis failed for " ++ kindName k))
        else pollAux k statuses (i + 1) fuel'
    else some (Except.ok (statuses i))

/-- Lines 201-203: concatenate the text of every segment, non-text
segments contributing the empty string, joined by a blank line. -/
def extractContent (items : List ContentItem) : String :=
  String.intercalate "\n\n" (items.map fun it =>
    match it with
    | .textItem v => v.getD ""
    | .otherItem => "")

/-- processWithAssistant (lines 76-222) for one kind against a given
remote behaviour, with fuel bounding the polling iterations modelled.
Returns none while still polling, some error for the caught-and-reported
failure message, and some ok with the formatted content on completion.
The emptiness check at line 197 compares the optional chain
assistantMessage?.content against falsiness: a present message always
has a (possibly empty) content array, which is truthy in JavaScript, so
the check fires exactly when no assistant message is found. -/
def processWithAssistant (k : AssistantType) (env : JobEnv) (fuel : Nat) :
    Option (Except String String) :=
  match env.threadCreate with
  | .error e => some (.error e)
  | .ok _ =>
    match env.messageCreate with
    | .error e => some (.error e)
    | .ok _ =>
      match env.runCreate with
      | .error e => some (.error e)
      | .ok _ =>
        match pollAux k env.statuses 0 fuel with
        | none => none
        | some (.error e) => some (.error e)
        | some (.ok _) =>
          match env.listMessages with
          | .error e => some (.error e)
          | .ok msgs =>
            match msgs.find? (fun m => decide (m.role = Role.assistant)) with
            | none => some (.error ("No response received for " ++ kindName k))
            | some m => some (.ok (validateAndFormatResponse (extractContent m.content) k))

/-- A remote behaviour whose run reports failed already on the first
status retrieval, while the thread does contain an assistant text
message. -/
def envFailedFirstPoll : JobEnv :=
  { threadCreate := .ok (), messageCreate := .ok (), runCreate := .ok (),
    statuses := fun _ => RunStatus.failed,
    listMessages := .ok [⟨Role.assistant, [ContentItem.textItem (some "hello")]⟩] }

/-- A remote behaviour whose run is queued once and then reports failed. -/
def envFailedSecondPoll : JobEnv :=
  { threadCreate := .ok (), messageCreate := .ok (), runCreate := .ok (),
    statuses := fun i => if i = 0 then RunStatus.queued else RunStatus.failed,
    listMessages := .ok [⟨Role.assistant, [ContentItem.textItem (some "hello")]⟩] }

/-- C3: evaluating the job protocol.  When failed arrives on the very
first retrieval the loop is never entered, its failed check never runs,
and the job proceeds to message extraction and completes with formatted
content instead of erroring; failed arriving on a later retrieval does
throw the analysis failure. -/
theorem c3_first_poll_failed_completes :
    processWithAssistant AssistantType.ACHIEVEMENTS envFailedFirstPoll 5 =
      some (Except.ok "## Notable Achievements\n\n- hello") ∧
    processWithAssistant AssistantType.ACHIEVEMENTS envFailedSecondPoll 5 =
      some (Except.error "Analysis failed for ACHIEVEMENTS") :=
  ⟨rfl, rfl⟩

/-- A remote behaviour whose run completes but whose assistant message
carries no text-bearing segment. -/
def envTextlessMessage : JobEnv :=
  { threadCreate := .ok (), messageCreate := .ok (), runCreate := .ok (),
    statuses := fun _ => RunStatus.completed,
    listMessages := .ok [⟨Role.assistant, [ContentItem.otherItem]⟩] }

/-- A remote behaviour whose run completes with no assistant-authored
message in the thread. -/
def envNoAssistantMessage : JobEnv :=
  { threadCreate := .ok (), messageCreate := .ok (), runCreate := .ok (),
    statuses := fun _ => RunStatus.completed,
    listMessages := .ok [⟨Role.user, [ContentItem.textItem (some "prompt")]⟩] }

/-- C4: evaluating the job protocol.  An assistant message whose content
has no text-bearing segment passes the falsiness check and completes
with a heading-only body instead of failing, while a missing assistant
message does make the job throw the no-response error. -/
theorem c4_textless_message_completes :
    processWithAssistant AssistantType.INSIGHTS envTextlessMessage 5 =
      some (Except.ok "## Key Research Insights\n\n") ∧
    processWithAssistant AssistantType.INSIGHTS envNoAssistantMessage 5 =
      some (Except.error "No response received for INSIGHTS") :=
  ⟨rfl, rfl⟩
